import Mathlib

/-!
Shallow embedding of the exchain query-resolution layer:
`app/rpc/backend/backend.go` (the `EthermintBackend` resolver and bloom
retrieval service) and `x/evm/export_operation.go` (the genesis export
tool's storage serialization).

External collaborators (the watcher cache, the tendermint client, codecs)
are modelled as function fields of an `Env` record returning `Except`;
Go's `(value, error)` pairs become `Except Err value`, and `uint64`/`int64`
arithmetic is `Nat`/`Int` with explicit reduction modulo `2 ^ 64` where the
Go code converts between widths.
-/

namespace Exchain

/-- Go `uint64(i)` conversion of an `int64`: two's-complement wrap into `[0, 2^64)`. -/
def toUint64 (i : Int) : Nat := (i % (2 ^ 64 : Int)).toNat

/-- Go `int64(n)` conversion of a `uint64`: two's-complement reinterpretation. -/
def toInt64 (n : Nat) : Int :=
  if n % 2 ^ 64 < 2 ^ 63 then ((n % 2 ^ 64 : Nat) : Int)
  else ((n % 2 ^ 64 : Nat) : Int) - 2 ^ 64

/-- `common.Hash`, treated as an opaque identity. -/
abbrev Hash := Nat

/-- Go `error` values. -/
abbrev Err := String

/-- Opaque encoded payloads (`[]byte`). -/
abbrev Payload := List Nat

/-- A raw pool transaction (`tmtypes.Tx`). -/
abbrev RawTx := List Nat

/-- An Ethereum bloom bitmap, as raw bytes. -/
abbrev Bloom := List Nat

/-- A decoded EVM transaction (`*evmtypes.MsgEthereumTx`), opaque. -/
abbrev EthTx := Nat

/-- An Ethereum log record (`*ethtypes.Log`), opaque. -/
abbrev Log := Nat

/-- A tendermint block header, opaque apart from what the resolver reads. -/
abbrev TmHeader := Nat

/-- `common.BytesToHash` over an opaque byte payload, modelled as a base-256 fold. -/
def bytesToHash (p : List Nat) : Hash := p.foldl (fun a b => a * 256 + b % 256) 0

/-- The Ethereum header shape returned to callers: the bloom field, which the
claims inspect, plus an opaque remainder standing for every other field. -/
structure EthHeader where
  bloom : Bloom
  base : Nat
deriving DecidableEq, Repr, Inhabited

/-- A canonical block as returned by `GetBlockByNumber`/`GetBlockByHash` with
`fullTx = false`: its transaction-hash list and its header (`EthBlock.EthHeader()`). -/
structure EthBlock where
  transactions : List Hash
  header : EthHeader
deriving DecidableEq, Repr, Inhabited

/-- A tendermint block (`resBlock.Block`): height, canonical hash
(`common.BytesToHash(block.Block.Hash())`), the per-transaction gas-used
sequence (consumed by `GetBlockCumulativeGas`) and an opaque header. -/
structure TmBlock where
  height : Int
  hash : Hash
  txGas : List Nat
  header : TmHeader
deriving DecidableEq, Repr, Inhabited

/-- `ctypes.ResultBlock` from `Client.Block`. -/
structure ResBlock where
  block : TmBlock
deriving DecidableEq, Repr, Inhabited

/-- A persisted transaction receipt from the watcher cache
(`MustGetTransactionReceipt`): only its log list is consumed by `GetLogs`. -/
structure Receipt where
  logs : List Log
deriving DecidableEq, Repr, Inhabited

/-- `evmtypes.ResultData` as decoded from a transaction result blob. -/
structure ResultData where
  logs : List Log
deriving DecidableEq, Repr, Inhabited

/-- `ctypes.ResultTx` from `Client.Tx`: height, in-block index, raw bytes,
gas used, the `IsOK` status of the result, and the result data blob. -/
structure TxQueryResult where
  height : Int
  index : Nat
  tx : RawTx
  gasUsed : Nat
  isOK : Bool
  txResultData : Payload
deriving DecidableEq, Repr, Inhabited

/-- `rpctypes.Transaction`: a wrapped EVM transaction with block linkage fields. -/
structure RpcTx where
  ethTx : EthTx
  hash : Hash
  blockHash : Hash
  blockNumber : Nat
  index : Nat
deriving DecidableEq, Repr, Inhabited

/-- A bloom-bits storage key, derived from (bit position, section index, block hash). -/
abbrev BitsKey := Nat × Nat × Hash

/-- The structured query paths `custom/evm/...` built with `fmt.Sprintf` in
`backend.go`, modelled symbolically (the string prefixes are distinct, so the
path constructors are in bijection with the formatted strings). -/
inductive QueryPath
  | hashToHeight (h : Hash)
  | heightToHash (n : Int)
  | bloom (n : Int)
  | bloomBits (k : BitsKey)
  | sectionCount
deriving DecidableEq, Repr

/-- The external world of an `EthermintBackend`: the Local Cache Source
(`watcher.Querier`, the `cache*` fields), the Authoritative Query Source
(the tendermint `Client` plus `clientCtx.Query`, the `client*`/`query`
fields), the codecs and converters, and the bloom-service deployment data. -/
structure Env where
  cacheLatestBlockNumber : Except Err Nat
  cacheBlockByNumber : Nat → Bool → Except Err EthBlock
  cacheBlockByHash : Hash → Bool → Except Err EthBlock
  cacheReceipt : Hash → Except Err Receipt
  cacheBlockHashByNumber : Nat → Except Err Hash
  clientBlock : Int → Except Err ResBlock
  clientTx : Hash → Except Err TxQueryResult
  clientBlockchainInfo : Except Err Int
  clientUnconfirmedTxs : Except Err (List RawTx)
  clientUserUnconfirmedTxs : String → Int → Except Err (List RawTx)
  clientUnconfirmedTxByHash : Hash → Except Err RawTx
  query : QueryPath → Except Err Payload
  unmarshalBlockNumber : Payload → Except Err Int
  mustUnmarshalBloom : Payload → Bloom
  unmarshalSections : Payload → Except Err Nat
  ethBlockFromTendermint : TmBlock → Bool → Except Err EthBlock
  ethHeaderFromTendermint : TmHeader → EthHeader
  rawTxToEthTx : RawTx → Except Err EthTx
  decodeResultData : Payload → Except Err ResultData
  isClientRestServer : Bool
  kvRead : BitsKey → Except Err Payload
  startBlockHeight : Int
  storedSection : Nat

/-- An environment where every fallible collaborator fails; concrete test
environments override individual fields. -/
def defaultEnv : Env where
  cacheLatestBlockNumber := .error "none"
  cacheBlockByNumber := fun _ _ => .error "none"
  cacheBlockByHash := fun _ _ => .error "none"
  cacheReceipt := fun _ => .error "none"
  cacheBlockHashByNumber := fun _ => .error "none"
  clientBlock := fun _ => .error "none"
  clientTx := fun _ => .error "none"
  clientBlockchainInfo := .error "none"
  clientUnconfirmedTxs := .error "none"
  clientUserUnconfirmedTxs := fun _ _ => .error "none"
  clientUnconfirmedTxByHash := fun _ => .error "none"
  query := fun _ => .error "none"
  unmarshalBlockNumber := fun _ => .error "none"
  mustUnmarshalBloom := fun _ => []
  unmarshalSections := fun _ => .error "none"
  ethBlockFromTendermint := fun _ _ => .error "none"
  ethHeaderFromTendermint := fun _ => default
  rawTxToEthTx := fun _ => .error "none"
  decodeResultData := fun _ => .error "none"
  isClientRestServer := false
  kvRead := fun _ => .error "none"
  startBlockHeight := 0
  storedSection := 0

/-- `LatestBlockNumber` (backend.go:419-427): `BlockchainInfo(0,0).LastHeight`. -/
def LatestBlockNumber (env : Env) : Except Err Int := env.clientBlockchainInfo

/-- `BlockNumber` (backend.go:82-101): cache tip first; on cache error fall back
to `LatestBlockNumber`; either tip is decremented when positive; the final
value is returned as `hexutil.Uint64`. -/
def BlockNumber (env : Env) : Except Err Nat :=
  match env.cacheLatestBlockNumber with
  | .ok u => .ok (if 0 < u then u - 1 else u)
  | .error _ =>
    match LatestBlockNumber env with
    | .error e => .error e
    | .ok bn => .ok (toUint64 (if 0 < bn then bn - 1 else bn))

/-- `GetBlockByNumber` (backend.go:104-126): cache first; on cache error resolve
a non-positive height through `BlockNumber`, then fetch the tendermint block —
a `Client.Block` failure returns `nil, nil` (`.ok none`) — and convert it. -/
def GetBlockByNumber (env : Env) (blockNum : Int) (fullTx : Bool) :
    Except Err (Option EthBlock) :=
  match env.cacheBlockByNumber (toUint64 blockNum) fullTx with
  | .ok b => .ok (some b)
  | .error _ =>
    let heightE : Except Err Int :=
      if blockNum ≤ 0 then
        match BlockNumber env with
        | .error e => .error e
        | .ok n => .ok (toInt64 n)
      else .ok blockNum
    match heightE with
    | .error e => .error e
    | .ok height =>
      match env.clientBlock height with
      | .error _ => .ok none
      | .ok rb =>
        match env.ethBlockFromTendermint rb.block fullTx with
        | .error e => .error e
        | .ok b => .ok (some b)

/-- `GetBlockByHash` (backend.go:129-150): cache first; on cache error resolve
the hash to a height via the `QueryHashToHeight` structured query, then fetch
the tendermint block — a `Client.Block` failure returns `nil, nil`
(`.ok none`) — and convert it. -/
def GetBlockByHash (env : Env) (hash : Hash) (fullTx : Bool) :
    Except Err (Option EthBlock) :=
  match env.cacheBlockByHash hash fullTx with
  | .ok b => .ok (some b)
  | .error _ =>
    match env.query (.hashToHeight hash) with
    | .error e => .error e
    | .ok res =>
      match env.unmarshalBlockNumber res with
      | .error e => .error e
      | .ok n =>
        match env.clientBlock n with
        | .error _ => .ok none
        | .ok rb =>
          match env.ethBlockFromTendermint rb.block fullTx with
          | .error e => .error e
          | .ok b => .ok (some b)

/-- `HeaderByNumber` (backend.go:153-185): resolve a non-positive height through
`BlockNumber`; cache hit returns the cached block's header; otherwise fetch the
tendermint block, query `QueryBloom` at its height, and merge the bloom into
the converted header. `MustUnmarshalJSON` of the bloom payload is modelled as
the total `mustUnmarshalBloom` (its panic-on-failure path is not modelled). -/
def HeaderByNumber (env : Env) (blockNum : Int) : Except Err EthHeader :=
  let heightE : Except Err Int :=
    if blockNum ≤ 0 then
      match BlockNumber env with
      | .error e => .error e
      | .ok n => .ok (toInt64 n)
    else .ok blockNum
  match heightE with
  | .error e => .error e
  | .ok height =>
    match env.cacheBlockByNumber (toUint64 height) false with
    | .ok ethBlock => .ok ethBlock.header
    | .error _ =>
      match env.clientBlock height with
      | .error e => .error e
      | .ok rb =>
        match env.query (.bloom rb.block.height) with
        | .error e => .error e
        | .ok res =>
          .ok { env.ethHeaderFromTendermint rb.block.header with
                bloom := env.mustUnmarshalBloom res }

/-- `HeaderByHash` (backend.go:188-215): resolve the hash to a height via
`QueryHashToHeight` (no cache attempt), fetch the tendermint block, query
`QueryBloom` at its height, and merge the bloom into the converted header. -/
def HeaderByHash (env : Env) (blockHash : Hash) : Except Err EthHeader :=
  match env.query (.hashToHeight blockHash) with
  | .error e => .error e
  | .ok res =>
    match env.unmarshalBlockNumber res with
    | .error e => .error e
    | .ok n =>
      match env.clientBlock n with
      | .error e => .error e
      | .ok rb =>
        match env.query (.bloom rb.block.height) with
        | .error e => .error e
        | .ok res2 =>
          .ok { env.ethHeaderFromTendermint rb.block.header with
                bloom := env.mustUnmarshalBloom res2 }

/-- `GetTransactionLogs` (backend.go:220-232): fetch the transaction, decode its
result blob, return the decoded logs. -/
def GetTransactionLogs (env : Env) (txHash : Hash) : Except Err (List Log) :=
  match env.clientTx txHash with
  | .error e => .error e
  | .ok txRes =>
    match env.decodeResultData txRes.txResultData with
    | .error e => .error e
    | .ok execRes => .ok execRes.logs

/-- Modelled from the spec: `rpctypes.GetBlockCumulativeGas` (code of this
repository, not under src/) returns "the sum of gas used by preceding
transactions in the block" up to (excluding) transaction index `idx`. -/
def GetBlockCumulativeGas (blk : TmBlock) (idx : Nat) : Nat :=
  ((blk.txGas.take idx).foldl (· + ·) 0)

/-- The receipt committed back to the cache by
`CommitTransactionReceiptToRpcDb` (backend.go:389-390), with the argument
list of that call as fields. -/
structure CommittedReceipt where
  status : Nat
  ethTx : EthTx
  txHash : Hash
  blockHash : Hash
  txIndex : Nat
  height : Nat
  data : ResultData
  cumulativeGasUsed : Nat
  gasUsed : Nat
deriving DecidableEq, Repr, Inhabited

/-- Outcome of the per-transaction body of the `GetLogs` loop
(backend.go:339-394): logs produced (with the receipt committed to the cache,
if the reconstruction path ran), the whole-call `return nil, nil` bail-out on
an unlocatable transaction, or a whole-call error return. -/
inductive TxLogsOutcome
  | logs (l : List Log) (commit : Option CommittedReceipt)
  | allNil
  | fail (e : Err)
deriving DecidableEq, Repr

/-- Result of `GetLogs` (backend.go:324-397). `commits` records the receipts
lazily written into the Local Cache Source, in order; side effects performed
before a bail-out or error persist. `crash` is the interface-conversion panic
on a `nil, nil` block result. -/
inductive GetLogsRes
  | ok (logs : List (List Log)) (commits : List CommittedReceipt)
  | nilNil (commits : List CommittedReceipt)
  | fail (e : Err) (commits : List CommittedReceipt)
  | crash
deriving DecidableEq, Repr

/-- The body of the `GetLogs` per-transaction loop (backend.go:339-394): prefer
the cached receipt; on a cache miss fetch the raw transaction (failure bails
out the whole call with `nil, nil`), fetch its block for the canonical hash,
decode it as an EVM transaction, compute cumulative gas (own gas plus the
preceding sum only at non-zero index), derive the status (decode failure of
the result blob forces failure status and leaves the zero-value `ResultData`),
default an empty log list, and commit the reconstructed receipt. -/
def getLogsTx (env : Env) (txHash : Hash) : TxLogsOutcome :=
  match env.cacheReceipt txHash with
  | .ok receipt => .logs receipt.logs none
  | .error _ =>
    match env.clientTx txHash with
    | .error _ => .allNil
    | .ok tx =>
      match env.clientBlock tx.height with
      | .error e => .fail e
      | .ok resBlock =>
        let blockHash := resBlock.block.hash
        match env.rawTxToEthTx tx.tx with
        | .error e => .fail e
        | .ok ethTx =>
          let cumulativeGasUsed :=
            tx.gasUsed +
              (if tx.index ≠ 0 then GetBlockCumulativeGas resBlock.block tx.index else 0)
          let okStatus : Nat := if tx.isOK then 1 else 0
          let sd : Nat × ResultData :=
            match env.decodeResultData tx.txResultData with
            | .ok d => (okStatus, d)
            | .error _ => (0, { logs := [] })
          let data : ResultData :=
            if sd.2.logs.isEmpty then { logs := [] } else sd.2
          .logs data.logs (some {
            status := sd.1
            ethTx := ethTx
            txHash := txHash
            blockHash := blockHash
            txIndex := tx.index
            height := toUint64 resBlock.block.height
            data := data
            cumulativeGasUsed := cumulativeGasUsed
            gasUsed := tx.gasUsed })

/-- The `GetLogs` loop over the block's transaction hashes, accumulating the
per-transaction log lists and the receipts committed so far. -/
def getLogsLoop (env : Env) : List Hash → List (List Log) → List CommittedReceipt → GetLogsRes
  | [], acc, commits => .ok acc commits
  | h :: rest, acc, commits =>
    match getLogsTx env h with
    | .logs l c => getLogsLoop env rest (acc ++ [l]) (commits ++ c.toList)
    | .allNil => .nilNil commits
    | .fail e => .fail e commits

/-- `GetLogs` (backend.go:324-397): resolve the block by hash (with
`fullTx = false`), extract its transaction-hash list, and run the
per-transaction loop. A `nil, nil` block result makes the Go type assertion
`resBlock.(map[string]interface{})` panic (`crash`). -/
def GetLogs (env : Env) (blockHash : Hash) : GetLogsRes :=
  match GetBlockByHash env blockHash false with
  | .error e => .fail e []
  | .ok none => .crash
  | .ok (some blk) => getLogsLoop env blk.transactions [] []

/-- Modelled from the spec: `rpctypes.NewTransaction` (code of this repository,
not under src/) wraps a decoded EVM transaction with its hash and the given
block linkage fields ("Accepted entries are wrapped with zero-valued block
hash/number/index"); the spec gives it no failure mode, so it is total here
and the callers' dead error branches disappear. -/
def NewTransaction (ethTx : EthTx) (txHash blockHash : Hash) (blockNumber index : Nat) : RpcTx :=
  { ethTx := ethTx, hash := txHash, blockHash := blockHash
    blockNumber := blockNumber, index := index }

/-- `PendingTransactions` (backend.go:236-260): list the unconfirmed pool,
skip entries that fail EVM decoding, wrap the rest with zero block linkage.
The result list holds `Option RpcTx` because Go's `[]*rpctypes.Transaction`
can hold nil pointers (none arise here: the slice is made with length 0). -/
def PendingTransactions (env : Env) : Except Err (List (Option RpcTx)) :=
  match env.clientUnconfirmedTxs with
  | .error e => .error e
  | .ok txs =>
    .ok (txs.foldl (fun acc tx =>
      match env.rawTxToEthTx tx with
      | .error _ => acc
      | .ok etx => acc ++ [some (NewTransaction etx (bytesToHash tx) 0 0 0)]) [])

/-- `UserPendingTransactions` (backend.go:278-302): like `PendingTransactions`
but for one address with a bound — and the result slice is created with
`make([]*rpctypes.Transaction, len(result.Txs))` (length, not capacity), so
the appended entries follow `len(result.Txs)` nil pointers. -/
def UserPendingTransactions (env : Env) (address : String) (limit : Int) :
    Except Err (List (Option RpcTx)) :=
  match env.clientUserUnconfirmedTxs address limit with
  | .error e => .error e
  | .ok txs =>
    .ok (txs.foldl (fun acc tx =>
      match env.rawTxToEthTx tx with
      | .error _ => acc
      | .ok etx => acc ++ [some (NewTransaction etx (bytesToHash tx) 0 0 0)])
      (List.replicate txs.length none))

/-- `PendingTransactionsByHash` (backend.go:306-321): fetch the single pool
entry by hash; a decode failure is returned as an error (despite the inline
comment "ignore non Ethermint EVM transactions"). -/
def PendingTransactionsByHash (env : Env) (target : Hash) : Except Err RpcTx :=
  match env.clientUnconfirmedTxByHash target with
  | .error e => .error e
  | .ok tx =>
    match env.rawTxToEthTx tx with
    | .error e => .error e
    | .ok etx => .ok (NewTransaction etx (bytesToHash tx) 0 0 0)

/-- `evmtypes.BloomBitsBlocks` (code of this repository, not under src/):
the fixed bloom section size constant returned by `BloomStatus`; modelled
from the spec as the go-ethereum default. -/
def BloomBitsBlocks : Nat := 4096

/-- Modelled from the spec: `evmtypes.BloomBitsKey` (code of this repository,
not under src/) derives "a deterministic storage key from (bit position,
section index, block hash)"; modelled as the tuple itself, which is
deterministic and injective. -/
def BloomBitsKey (bit s : Nat) (h : Hash) : BitsKey := (bit, s, h)

/-- Modelled from the spec: `evmtypes.ReadBloomBits` (code of this repository,
not under src/) reads "a compressed bit vector from the Local Cache Source's
key-value store" at the key derived from (bit, section, hash). -/
def ReadBloomBits (env : Env) (bit s : Nat) (h : Hash) : Except Err Payload :=
  env.kvRead (BloomBitsKey bit s h)

/-- Modelled from the spec: `bitutil.DecompressBytes` (external library)
decompresses a zero-suppressed vector "to exactly `SectionSize/8` bytes";
modelled as zero-padding short data to the target and rejecting oversized
data, which preserves the stated contract: success yields exactly `target`
bytes. -/
def DecompressBytes (data : Payload) (target : Nat) : Except Err Payload :=
  if data.length ≤ target then .ok (data ++ List.replicate (target - data.length) 0)
  else .error "decompression target mismatch"

/-- The uint64 expression `(section+1)*sectionSize-1` from backend.go:449,
with Go's wrapping subtraction (underflows to `2^64 - 1` when the product
is zero). -/
def sectionLastHeight (s ss : Nat) : Nat := ((s + 1) * ss + (2 ^ 64 - 1)) % 2 ^ 64

/-- `GetBlockHashByHeight` (backend.go:480-493): cache first; on cache error
query `QueryHeightToHash` and convert the payload with `common.BytesToHash`;
a query failure returns the zero hash together with the error. -/
def GetBlockHashByHeight (env : Env) (height : Int) : Except Err Hash :=
  match env.cacheBlockHashByNumber (toUint64 height) with
  | .ok h => .ok h
  | .error _ =>
    match env.query (.heightToHash height) with
    | .error e => .error e
    | .ok res => .ok (bytesToHash res)

/-- `bloombits.Retrieval` as served by the handler pool: one bit position
across a list of section indices. -/
structure Retrieval where
  bit : Nat
  sections : List Nat
deriving DecidableEq, Repr

/-- The mutated fields of a `Retrieval` after a handler fills it: the
per-section output slots (`task.Bitsets`) and the single task error slot
(`task.Error`). -/
structure RetrievalOut where
  bitsets : List (Option Payload)
  error : Option Err
deriving DecidableEq, Repr

/-- One iteration of the section loop in `StartBloomHandlers`
(backend.go:448-471): compute the last height of the section (plus the chain
start-height offset), resolve its canonical hash (on failure the error is
recorded and the zero-value hash is used), read the compressed vector by
deployment topology (structured `QueryBloomBits` query or local KV read, both
at the `BloomBitsKey`-derived key), and decompress to `sectionSize/8` bytes.
Returns the output slot for this section and the updated task error slot:
a read or decompression failure overwrites the error slot; success leaves the
incoming error untouched. -/
def processSection (env : Env) (ss bit : Nat) (errIn : Option Err) (s : Nat) :
    Option Payload × Option Err :=
  let height : Int := toInt64 (sectionLastHeight s ss) + env.startBlockHeight
  let hashErr : Hash × Option Err :=
    match GetBlockHashByHeight env height with
    | .ok h => (h, errIn)
    | .error e => (0, some e)
  let readRes : Except Err Payload :=
    if env.isClientRestServer then env.query (.bloomBits (BloomBitsKey bit s hashErr.1))
    else ReadBloomBits env bit s hashErr.1
  match readRes with
  | .ok compVector =>
    match DecompressBytes compVector (ss / 8) with
    | .ok blob => (some blob, hashErr.2)
    | .error e => (none, some e)
  | .error e => (none, some e)

/-- One handler request in `StartBloomHandlers` (backend.go:445-472): fill the
task's `Bitsets` slot for each requested section in order, threading the task
error slot; a section failure never aborts the remaining sections. -/
def processTask (env : Env) (ss : Nat) (t : Retrieval) : RetrievalOut :=
  let r := t.sections.foldl (fun acc s =>
    let pr := processSection env ss t.bit acc.2 s
    (acc.1 ++ [pr.1], pr.2)) (([] : List (Option Payload)), (none : Option Err))
  { bitsets := r.1, error := r.2 }

/-- `BloomStatus` (backend.go:401-416): always returns `(BloomBitsBlocks, n)`
with no error in its signature. Against a rest-server deployment, `n` comes
from the `QuerySection` structured query: a query failure leaves the nil
payload, whose `json.Unmarshal` always fails, and an unmarshal failure leaves
`sections` at its zero value — both only logged. Otherwise `n` is the local
indexer's stored section count. -/
def BloomStatus (env : Env) : Nat × Nat :=
  if env.isClientRestServer then
    let sections : Nat :=
      match env.query .sectionCount with
      | .error _ => 0
      | .ok res =>
        match env.unmarshalSections res with
        | .ok n => n
        | .error _ => 0
    (BloomBitsBlocks, sections)
  else (BloomBitsBlocks, env.storedSection)

/-! ### Export tool (`x/evm/export_operation.go`): storage line serialization -/

/-- One lowercase hex digit (`encoding/hex` alphabet `0123456789abcdef`). -/
def hexDigitChar (n : Nat) : Char :=
  if n < 10 then Char.ofNat (48 + n) else Char.ofNat (87 + n)

/-- One byte as two lowercase hex digits. -/
def byteToHex (b : Nat) : List Char := [hexDigitChar (b / 16), hexDigitChar (b % 16)]

/-- `hex.EncodeToString` over a byte sequence. -/
def hexEncode (bs : List Nat) : List Char := (bs.map byteToHex).flatten

/-- The numeric value of one hex digit (`encoding/hex` accepts both cases). -/
def hexDigitVal (c : Char) : Option Nat :=
  if 48 ≤ c.toNat ∧ c.toNat ≤ 57 then some (c.toNat - 48)
  else if 97 ≤ c.toNat ∧ c.toNat ≤ 102 then some (c.toNat - 87)
  else if 65 ≤ c.toNat ∧ c.toNat ≤ 70 then some (c.toNat - 55)
  else none

/-- `hex.DecodeString` as used through `common.Hex2Bytes`: decode byte pairs
and stop at the first invalid digit or odd trailing digit, keeping the prefix
decoded so far (the error is discarded by `Hex2Bytes`). -/
def hexDecode : List Char → List Nat
  | c1 :: c2 :: rest =>
    match hexDigitVal c1, hexDigitVal c2 with
    | some hi, some lo => (16 * hi + lo) :: hexDecode rest
    | _, _ => []
  | _ => []

/-- `common.BytesToHash` over real bytes: crop from the left to 32 bytes, then
left-pad with zeros to 32 bytes. -/
def BytesToHash (bs : List Nat) : List Nat :=
  let b := if 32 < bs.length then bs.drop (bs.length - 32) else bs
  List.replicate (32 - b.length) 0 ++ b

/-- `common.FromHex`: strip an optional `0x`/`0X` prefix, left-pad an
odd-length hex string with `0`, and decode. -/
def FromHex (cs : List Char) : List Nat :=
  let s : List Char :=
    match cs with
    | c1 :: c2 :: rest => if c1 = '0' ∧ (c2 = 'x' ∨ c2 = 'X') then rest else cs
    | _ => cs
  hexDecode (if s.length % 2 = 1 then '0' :: s else s)

/-- `common.HexToHash`. -/
def HexToHash (cs : List Char) : List Nat := BytesToHash (FromHex cs)

/-- `common.Hash.Hex()`: `0x` followed by 64 lowercase hex digits. -/
def hashHex (h : List Nat) : List Char := '0' :: 'x' :: hexEncode h

/-- One `types.State` entry: a (key, value) pair of 32-byte hashes. -/
structure StoragePair where
  key : List Nat
  value : List Nat
deriving DecidableEq, Repr, Inhabited

/-- One line written by `syncWriteAccountStorageSlice` (export_operation.go:121):
`fmt.Sprintf("%s:%s\n", key.Hex(), value.Hex())`. -/
def storageLine (s : StoragePair) : List Char :=
  hashHex s.key ++ ':' :: hashHex s.value ++ ['\n']

/-- The file content produced by `syncWriteAccountStorageSlice`
(export_operation.go:102-128): one line per storage pair, in `ForEachStorage`
order (file creation, buffering and the empty-storage file removal are not
modelled: an empty sequence simply produces empty content, which reads back
as the empty storage, matching the removed file's nil read). -/
def syncWriteAccountStorageSlice (storage : List StoragePair) : List Char :=
  (storage.map storageLine).flatten

/-- `strings.Split` on a single-character separator. -/
def splitOnChar (sep : Char) : List Char → List (List Char)
  | [] => [[]]
  | c :: rest =>
    if c = sep then [] :: splitOnChar sep rest
    else
      match splitOnChar sep rest with
      | [] => [[c]]
      | l :: ls => (c :: l) :: ls

/-- One iteration of the `readStorageFromFile` loop (export_operation.go:177-185):
remove every `\n` (`strings.ReplaceAll`), split on `:`, and convert the first
two fields with `common.HexToHash`. A line with no `:` makes the Go code panic
on `kvPair[1]` (`none`). -/
def parseStorageLine (line : List Char) : Option StoragePair :=
  match splitOnChar ':' (line.filter (fun c => c ≠ '\n')) with
  | k :: v :: _ => some ⟨HexToHash k, HexToHash v⟩
  | _ => none

/-- Parse each complete line in order; `none` models the per-line panic. -/
def parseStorageLines : List (List Char) → Option (List StoragePair)
  | [] => some []
  | l :: ls =>
    match parseStorageLine l, parseStorageLines ls with
    | some s, some ss => some (s :: ss)
    | _, _ => none

/-- `readStorageFromFile` (export_operation.go:167-188): `ReadString('\n')`
yields each `\n`-terminated chunk and the loop breaks on the first error, so a
trailing unterminated chunk is dropped — `splitOnChar '\n'` produces exactly
the terminated chunks followed by that trailer, hence `dropLast`. -/
def readStorageFromFile (cs : List Char) : Option (List StoragePair) :=
  parseStorageLines ((splitOnChar '\n' cs).dropLast)

/-- A well-formed 32-byte hash value. -/
abbrev hashWF (h : List Nat) : Prop := h.length = 32 ∧ ∀ b ∈ h, b < 256

/-- A well-formed storage pair. -/
abbrev pairWF (s : StoragePair) : Prop := hashWF s.key ∧ hashWF s.value

/-- A concrete 32-byte key for the C10 witness. -/
def k0 : List Nat := List.replicate 32 0

/-- A concrete 32-byte value for the C10 witness. -/
def v0 : List Nat := List.replicate 31 0 ++ [255]

/-! ### Predicates and concrete environments used by the claim theorems -/

/-- The tip height reported to `BlockNumber`: the cache tip when the cache
answers, otherwise the authoritative `BlockchainInfo` tip. -/
def reportedTip (env : Env) : Option Int :=
  match env.cacheLatestBlockNumber with
  | .ok u => some (u : Int)
  | .error _ =>
    match env.clientBlockchainInfo with
    | .ok bn => some bn
    | .error _ => none

/-- A transaction hash locatable by neither the cache source (receipt lookup)
nor the authoritative source (`Client.Tx`). -/
def unlocatable (env : Env) (h : Hash) : Prop :=
  (∃ e, env.cacheReceipt h = .error e) ∧ (∃ e, env.clientTx h = .error e)

/-- A transaction hash whose `GetLogs` loop iteration yields logs without
bailing out or erroring. -/
def yieldsLogs (env : Env) (h : Hash) : Prop :=
  ∃ l c, getLogsTx env h = .logs l c

/-- A bloom section whose whole retrieval chain succeeds: its output slot gets
`blob` and the incoming task error is passed through untouched. -/
def sectionResolves (env : Env) (ss bit s : Nat) (blob : Payload) : Prop :=
  ∀ errIn, processSection env ss bit errIn s = (some blob, errIn)

/-- A bloom section whose retrieval records an error in the task error slot. -/
def sectionFaults (env : Env) (ss bit s : Nat) : Prop :=
  ∀ errIn, ((processSection env ss bit errIn s).2).isSome = true

/-- C3 counterexample environment: cache down, authoritative tip `-1`. -/
def envC3x : Env :=
  { defaultEnv with clientBlockchainInfo := .ok (-1) }

/-- C3 witness environment: cache tip `7`. -/
def envC3w : Env :=
  { defaultEnv with cacheLatestBlockNumber := .ok 7 }

/-- C2 counterexample environment: cache down, authoritative block fetch down. -/
def envC2x : Env :=
  { defaultEnv with clientBlock := fun _ => .error "client down" }

/-- A concrete tendermint block result. -/
def rb0 : ResBlock := ⟨⟨10, 99, [5], 0⟩⟩

/-- A concrete converted block. -/
def blk0 : EthBlock := ⟨[], ⟨[1, 2], 0⟩⟩

/-- C2 witness environment: cache down, authoritative path healthy. -/
def envC2w : Env :=
  { defaultEnv with
      clientBlock := fun _ => .ok rb0
      ethBlockFromTendermint := fun _ _ => .ok blk0 }

/-- C1 counterexample environment: block `77` holds transactions `[11, 22]`;
`22` is unlocatable by both sources, but reconstructing `11` fails at the
containing-block fetch, so `GetLogs` errors instead of returning `nil, nil`. -/
def envC1x : Env :=
  { defaultEnv with
      cacheBlockByHash := fun h _ =>
        if h = 77 then .ok ⟨[11, 22], default⟩ else .error "none"
      cacheReceipt := fun _ => .error "no receipt"
      clientTx := fun h =>
        if h = 11 then .ok ⟨3, 0, [9], 100, true, []⟩ else .error "not found"
      clientBlock := fun _ => .error "boom" }

/-- C1 witness environment: block `88` holds the single unlocatable
transaction `33`. -/
def envC1w : Env :=
  { defaultEnv with
      cacheBlockByHash := fun h _ =>
        if h = 88 then .ok ⟨[33], default⟩ else .error "none" }

/-- C4 environment: a one-entry decodable pool for the list views, and a
non-EVM pool entry for the by-hash view. -/
def envC4x : Env :=
  { defaultEnv with
      clientUnconfirmedTxs := .ok [[1]]
      clientUserUnconfirmedTxs := fun _ _ => .ok [[1]]
      clientUnconfirmedTxByHash := fun _ => .ok [2]
      rawTxToEthTx := fun t => if t = [1] then .ok 5 else .error "not an evm tx" }

/-- A concrete tendermint block at height 4 for the C5 witness. -/
def rb5 : ResBlock := ⟨⟨4, 50, [], 0⟩⟩

/-- C5 witness environment: hash `77` resolves to height `4`; the bloom query
at height `4` returns the bloom payload `[9]`; the cache misses. -/
def envC5w : Env :=
  { defaultEnv with
      query := fun p =>
        if p = .hashToHeight 77 then .ok [3]
        else if p = .bloom 4 then .ok [9]
        else .error "none"
      unmarshalBlockNumber := fun r => if r = [3] then .ok 4 else .error "none"
      mustUnmarshalBloom := fun r => r
      clientBlock := fun n => if n = 4 then .ok rb5 else .error "none" }

/-- A concrete tendermint block for the C6 witness: height 1, hash 55,
per-transaction gas `[5, 8]`. -/
def rb6 : ResBlock := ⟨⟨1, 55, [5, 8], 0⟩⟩

/-- C6 witness environment: receipt cache misses, transaction `9` found at
height 1 with index 1 and gas 21000, result blob undecodable. -/
def envC6w : Env :=
  { defaultEnv with
      cacheReceipt := fun _ => .error "miss"
      clientTx := fun h =>
        if h = 9 then .ok ⟨1, 1, [1], 21000, true, [7]⟩ else .error "none"
      clientBlock := fun n => if n = 1 then .ok rb6 else .error "none"
      rawTxToEthTx := fun _ => .ok 5 }

/-- Bloom-service witness environment (sections of size 8, start offset 1):
section 0 resolves — height 8, hash 42, stored vector `[170]` — while
section 1 faults at every step. -/
def envBloomW : Env :=
  { defaultEnv with
      startBlockHeight := 1
      cacheBlockHashByNumber := fun n => if n = 8 then .ok 42 else .error "nohash"
      kvRead := fun k => if k = (0, 0, 42) then .ok [170] else .error "nobits" }

/-- C9 witness environment: rest-server topology with the section query down. -/
def envC9w : Env :=
  { defaultEnv with isClientRestServer := true }

/-! ## Theorems -/

/-- C3 (counterexample): with the cache down and the authoritative source
reporting tip `-1 ≤ 0`, `BlockNumber` does not return `0` — the negative tip
is converted to `hexutil.Uint64`, wrapping to `2 ^ 64 - 1`. -/
theorem c3_counterexample :
    reportedTip envC3x = some (-1) ∧
    BlockNumber envC3x = .ok 18446744073709551615 :=
  ⟨rfl, rfl⟩

/-- C3 (amended): for every tip `t` reported by either source (within the
source's machine-integer range), `BlockNumber` returns `t - 1` when `t > 0`
and `t mod 2 ^ 64` otherwise — which is `0` exactly at `t = 0`; a negative
authoritative tip wraps instead of clamping to `0` (cache tips are unsigned,
so `t ≤ 0` there already means `t = 0`). No error is returned in either case. -/
theorem c3_tip_behavior (env : Env) (t : Int)
    (ht : reportedTip env = some t)
    (hcw : ∀ u, env.cacheLatestBlockNumber = .ok u → u < 2 ^ 64)
    (hbw : ∀ bn : Int, env.clientBlockchainInfo = .ok bn → bn < 2 ^ 63) :
    BlockNumber env = .ok (if 0 < t then (t - 1).toNat else (t % (2 ^ 64 : Int)).toNat) := by
  unfold reportedTip at ht
  unfold BlockNumber LatestBlockNumber
  cases hc : env.cacheLatestBlockNumber with
  | ok u =>
    rw [hc] at ht
    dsimp only at ht ⊢
    simp only [Option.some.injEq] at ht
    subst ht
    have hu := hcw u hc
    congr 1
    split_ifs <;> omega
  | error e =>
    rw [hc] at ht
    cases hb : env.clientBlockchainInfo with
    | ok bn =>
      rw [hb] at ht
      dsimp only at ht ⊢
      simp only [Option.some.injEq] at ht
      subst ht
      have hbn := hbw bn hb
      unfold toUint64
      congr 1
      split_ifs <;> omega
    | error e2 =>
      rw [hb] at ht
      simp at ht

/-- C3 witness: cache tip `7` yields height `6`. -/
theorem c3_witness : BlockNumber envC3w = .ok 6 := by
  have h := c3_tip_behavior envC3w 7 rfl
    (fun u hu => by injection hu with h2; omega)
    (fun bn hbn => by injection hbn)
  simpa using h

/-- C2 (counterexample): with the cache down and the authoritative raw block
fetch failing, `GetBlockByNumber` returns no block and no error (`.ok none`),
not the authoritative source's error. -/
theorem c2_counterexample :
    envC2x.cacheBlockByNumber (toUint64 5) false = .error "none" ∧
    envC2x.clientBlock 5 = .error "client down" ∧
    GetBlockByNumber envC2x 5 false = .ok none :=
  ⟨rfl, rfl, rfl⟩

/-- C2 (amended): on any cache error — at every height, including the
`blockNum ≤ 0` sentinel resolved to the current tip through `BlockNumber` —
`GetBlockByNumber` and `GetBlockByHash` fall back to the Authoritative Query
Source and the result is determined entirely by that source: the cache's error
value is never surfaced. Errors from the sentinel height resolution (second
conjunct, verbatim), the structured hash-to-height query, its decoding, and
the block conversion are returned verbatim, but a failure of the raw
`Client.Block` fetch yields no block and no error (`.ok none`) instead of the
authoritative error. -/
theorem c2_cache_fallback (env : Env) (n : Int) (h : Hash) (full : Bool) (e1 e2 e3 : Err) :
    (env.cacheBlockByNumber (toUint64 n) full = .error e1 →
      GetBlockByNumber env n full =
        match ((if n ≤ 0 then
                  match BlockNumber env with
                  | .error e => .error e
                  | .ok num => .ok (toInt64 num)
                else .ok n) : Except Err Int) with
        | .error e => .error e
        | .ok height =>
          match env.clientBlock height with
          | .error _ => .ok none
          | .ok rb =>
            match env.ethBlockFromTendermint rb.block full with
            | .error e => .error e
            | .ok b => .ok (some b)) ∧
    (env.cacheBlockByNumber (toUint64 n) full = .error e1 → n ≤ 0 →
      BlockNumber env = .error e3 →
      GetBlockByNumber env n full = .error e3) ∧
    (env.cacheBlockByHash h full = .error e2 →
      GetBlockByHash env h full =
        match env.query (.hashToHeight h) with
        | .error e => .error e
        | .ok p =>
          match env.unmarshalBlockNumber p with
          | .error e => .error e
          | .ok num =>
            match env.clientBlock num with
            | .error _ => .ok none
            | .ok rb =>
              match env.ethBlockFromTendermint rb.block full with
              | .error e => .error e
              | .ok b => .ok (some b)) := by
  refine ⟨?_, ?_, ?_⟩
  · intro hc
    unfold GetBlockByNumber
    rw [hc]
  · intro hc hn hbn
    unfold GetBlockByNumber
    rw [hc]
    dsimp only
    rw [if_pos hn, hbn]
  · intro hc
    unfold GetBlockByHash
    rw [hc]

/-- C2 witness: with the cache down, a healthy authoritative path returns the
converted block; at the sentinel height `0` the failing tip resolution's error
is returned verbatim; and a failing structured query returns that query's
error. -/
theorem c2_witness :
    GetBlockByNumber envC2w 5 false = .ok (some blk0) ∧
    GetBlockByNumber envC2w 0 false = .error "none" ∧
    GetBlockByHash envC2w 3 false = .error "none" := by
  have h1 := (c2_cache_fallback envC2w 5 3 false "none" "none" "none").1 rfl
  have h2 := (c2_cache_fallback envC2w 0 3 false "none" "none" "none").2.1 rfl
    (by norm_num) rfl
  have h3 := (c2_cache_fallback envC2w 5 3 false "none" "none" "none").2.2 rfl
  exact ⟨by rw [h1]; rfl, h2, by rw [h3]; rfl⟩

/-- C9: `BloomStatus` carries no error in its signature; against a rest-server
deployment, if the structured section query fails or its payload fails to
decode, it returns the fixed section-size constant paired with a section count
of `0`. -/
theorem c9_bloom_status_silent (env : Env)
    (hrest : env.isClientRestServer = true)
    (hfail : (∃ e, env.query .sectionCount = .error e) ∨
      (∃ r e, env.query .sectionCount = .ok r ∧ env.unmarshalSections r = .error e)) :
    BloomStatus env = (BloomBitsBlocks, 0) := by
  unfold BloomStatus
  rw [hrest]
  simp only [if_true]
  rcases hfail with ⟨e, he⟩ | ⟨r, e, hq, hu⟩
  · rw [he]
  · rw [hq]
    dsimp only
    rw [hu]

/-- C9 witness: rest-server topology with the section query failing. -/
theorem c9_witness : BloomStatus envC9w = (BloomBitsBlocks, 0) :=
  c9_bloom_status_silent envC9w rfl (Or.inl ⟨"none", rfl⟩)

/-- C7: a task with one resolving and one faulting section, in either order,
ends with the resolving section's output slot filled and an error recorded in
the task error slot — the faulting section aborts neither the sibling section
nor the task, and neither result overwrites the other. -/
theorem c7_partial_failure (env : Env) (ss bit a b : Nat) (blob : Payload)
    (ha : sectionResolves env ss bit a blob)
    (hb : sectionFaults env ss bit b) :
    ((processTask env ss ⟨bit, [a, b]⟩).bitsets[0]? = some (some blob) ∧
     ((processTask env ss ⟨bit, [a, b]⟩).error).isSome = true) ∧
    ((processTask env ss ⟨bit, [b, a]⟩).bitsets[1]? = some (some blob) ∧
     ((processTask env ss ⟨bit, [b, a]⟩).error).isSome = true) := by
  have hA := ha none
  have hB := hb none
  constructor
  · unfold processTask
    simp only [List.foldl_cons, List.foldl_nil, hA]
    exact ⟨rfl, hB⟩
  · unfold processTask
    simp only [List.foldl_cons, List.foldl_nil, ha ((processSection env ss bit none b).2)]
    exact ⟨rfl, hB⟩

/-- C7 witness: in `envBloomW` with sections of size 8, section 0 resolves to
the stored vector `[170]` and section 1 faults. -/
theorem c7_witness :
    ((processTask envBloomW 8 ⟨0, [0, 1]⟩).bitsets[0]? = some (some [170]) ∧
     ((processTask envBloomW 8 ⟨0, [0, 1]⟩).error).isSome = true) ∧
    ((processTask envBloomW 8 ⟨0, [1, 0]⟩).bitsets[1]? = some (some [170]) ∧
     ((processTask envBloomW 8 ⟨0, [1, 0]⟩).error).isSome = true) :=
  c7_partial_failure envBloomW 8 0 0 1 [170] (fun _ => rfl) (fun _ => rfl)

/-- When hash resolution succeeds, one section of the bloom retrieval loop is
exactly the read-then-decompress chain at the `BloomBitsKey`-derived key. -/
theorem processSection_hash_ok (env : Env) (ss bit s : Nat) (errIn : Option Err) (h : Hash)
    (hh : GetBlockHashByHeight env (toInt64 (sectionLastHeight s ss) + env.startBlockHeight) = .ok h) :
    processSection env ss bit errIn s =
      match (if env.isClientRestServer then env.query (.bloomBits (BloomBitsKey bit s h))
             else ReadBloomBits env bit s h) with
      | .ok comp =>
        match DecompressBytes comp (ss / 8) with
        | .ok blob => (some blob, errIn)
        | .error e => (none, some e)
      | .error e => (none, some e) := by
  unfold processSection
  dsimp only
  rw [hh]

/-- A successful decompression yields exactly the target length. -/
theorem decompress_length (v : Payload) (t : Nat) (blob : Payload)
    (hd : DecompressBytes v t = .ok blob) : blob.length = t := by
  unfold DecompressBytes at hd
  split at hd
  · rename_i hv
    injection hd with h2
    subst h2
    simp only [List.length_append, List.length_replicate]
    omega
  · exact absurd hd (by simp)

/-- C8: for a section `s` whose hash resolves, the worker queries the hash at
exactly height `(s+1)*sectionSize - 1` plus the chain start-height offset,
reads the compressed vector (by either deployment topology) at the key derived
from `(bit, s, hash)`, and stores a decompressed vector of exactly
`sectionSize/8` bytes in the section's output slot, leaving the task error
slot untouched. -/
theorem c8_section_contract (env : Env) (ss bit s : Nat) (errIn : Option Err)
    (h : Hash) (v blob : Payload)
    (hss : 0 < ss) (hbound : (s + 1) * ss ≤ 2 ^ 63)
    (hh : GetBlockHashByHeight env ((((s + 1) * ss - 1 : Nat) : Int) + env.startBlockHeight) = .ok h)
    (hr : (if env.isClientRestServer then env.query (.bloomBits (BloomBitsKey bit s h))
           else ReadBloomBits env bit s h) = .ok v)
    (hd : DecompressBytes v (ss / 8) = .ok blob) :
    processSection env ss bit errIn s = (some blob, errIn) ∧ blob.length = ss / 8 := by
  have hpos : 0 < (s + 1) * ss := Nat.mul_pos (Nat.succ_pos s) hss
  have hsec : sectionLastHeight s ss = (s + 1) * ss - 1 := by
    unfold sectionLastHeight
    revert hpos hbound
    generalize (s + 1) * ss = P
    intro hpos hbound
    omega
  have hsmall : (s + 1) * ss - 1 < 2 ^ 63 := by
    revert hpos hbound
    generalize (s + 1) * ss = P
    intro hpos hbound
    omega
  have hti : toInt64 (sectionLastHeight s ss) = (((s + 1) * ss - 1 : Nat) : Int) := by
    rw [hsec]
    unfold toInt64
    rw [Nat.mod_eq_of_lt (by omega), if_pos (by omega)]
  refine ⟨?_, decompress_length v (ss / 8) blob hd⟩
  rw [processSection_hash_ok env ss bit s errIn h (by rw [hti]; exact hh)]
  rw [hr]
  dsimp only
  rw [hd]

/-- C8 witness: in `envBloomW`, section 0 with sections of size 8 queries
height `8 = (0+1)*8 - 1 + 1`, reads `[170]` at key `(0, 0, 42)` and stores a
1-byte vector. -/
theorem c8_witness :
    processSection envBloomW 8 0 none 0 = (some [170], none) ∧
    ([170] : Payload).length = 8 / 8 :=
  c8_section_contract envBloomW 8 0 0 none 42 [170] [170]
    (by decide) (by norm_num) rfl rfl rfl

/-- C5: for one logical block — a hash resolving to height `n > 0` through the
structured query — `HeaderByNumber n` and `HeaderByHash` return headers with
identical bloom fields, the bloom being backfilled from the `QueryBloom`
structured query on every path that reconstructs the header from a tendermint
block (whose representation omits the bloom); on a cache hit the cached
header is returned, so agreement additionally assumes the cache's projection
carries the same bloom as the authoritative query. -/
theorem c5_bloom_identical (env : Env) (h : Hash) (n : Int) (p p2 : Payload) (rb : ResBlock)
    (hq : env.query (.hashToHeight h) = .ok p)
    (hu : env.unmarshalBlockNumber p = .ok n)
    (hn : 0 < n)
    (hcb : env.clientBlock n = .ok rb)
    (hq2 : env.query (.bloom rb.block.height) = .ok p2)
    (hcache : (∃ e, env.cacheBlockByNumber (toUint64 n) false = .error e) ∨
      (∃ blk, env.cacheBlockByNumber (toUint64 n) false = .ok blk ∧
        blk.header.bloom = env.mustUnmarshalBloom p2)) :
    ∃ h1 h2, HeaderByNumber env n = .ok h1 ∧ HeaderByHash env h = .ok h2 ∧
      h1.bloom = h2.bloom := by
  have hhash : HeaderByHash env h =
      .ok { env.ethHeaderFromTendermint rb.block.header with
            bloom := env.mustUnmarshalBloom p2 } := by
    unfold HeaderByHash
    rw [hq]
    dsimp only
    rw [hu]
    dsimp only
    rw [hcb]
    dsimp only
    rw [hq2]
  have hnle : ¬ n ≤ 0 := by omega
  rcases hcache with ⟨e, hce⟩ | ⟨blk, hcb2, hbl⟩
  · have hnum : HeaderByNumber env n =
        .ok { env.ethHeaderFromTendermint rb.block.header with
              bloom := env.mustUnmarshalBloom p2 } := by
      unfold HeaderByNumber
      rw [if_neg hnle]
      dsimp only
      rw [hce]
      dsimp only
      rw [hcb]
      dsimp only
      rw [hq2]
    exact ⟨_, _, hnum, hhash, rfl⟩
  · have hnum : HeaderByNumber env n = .ok blk.header := by
      unfold HeaderByNumber
      rw [if_neg hnle]
      dsimp only
      rw [hcb2]
    exact ⟨_, _, hnum, hhash, hbl⟩

/-- C5 witness: in `envC5w`, hash `77` resolves to height `4`; both entry
points return the header whose bloom is the queried `[9]`. -/
theorem c5_witness :
    HeaderByNumber envC5w 4 = .ok ⟨[9], 0⟩ ∧
    HeaderByHash envC5w 77 = .ok ⟨[9], 0⟩ := by
  obtain ⟨h1, h2, e1, e2, eb⟩ := c5_bloom_identical envC5w 77 4 [3] [9] rb5
    rfl rfl (by norm_num) rfl rfl (Or.inl ⟨"none", rfl⟩)
  have hv1 : HeaderByNumber envC5w 4 = .ok ⟨[9], 0⟩ := rfl
  have hv2 : HeaderByHash envC5w 77 = .ok ⟨[9], 0⟩ := rfl
  exact ⟨hv1, hv2⟩

/-- C6: when the `GetLogs` loop reconstructs a receipt on a receipt-cache miss
(transaction found, containing block found, EVM decode succeeding), the
receipt committed back to the Local Cache Source satisfies: cumulative gas is
the transaction's own gas plus `GetBlockCumulativeGas` of the preceding
transactions exactly when its index is non-zero (own gas only at index zero);
a result-blob decode failure forces failure status and the empty log list; a
decoded empty log list stays the empty list; and the returned logs are
exactly the committed receipt's logs, the commit being paired with (hence
preceding) their return. -/
theorem c6_receipt_reconstruction (env : Env) (h : Hash) (tx : TxQueryResult)
    (rb : ResBlock) (etx : EthTx) (ec : Err)
    (hc : env.cacheReceipt h = .error ec)
    (ht : env.clientTx h = .ok tx)
    (hb : env.clientBlock tx.height = .ok rb)
    (he : env.rawTxToEthTx tx.tx = .ok etx) :
    ∃ r : CommittedReceipt,
      getLogsTx env h = .logs r.data.logs (some r) ∧
      r.cumulativeGasUsed =
        tx.gasUsed + (if tx.index = 0 then 0 else GetBlockCumulativeGas rb.block tx.index) ∧
      (∀ e2, env.decodeResultData tx.txResultData = .error e2 →
        r.status = 0 ∧ r.data.logs = []) ∧
      (∀ d, env.decodeResultData tx.txResultData = .ok d → d.logs = [] →
        r.data.logs = []) ∧
      r.txHash = h ∧ r.blockHash = rb.block.hash ∧ r.gasUsed = tx.gasUsed := by
  unfold getLogsTx
  rw [hc]
  dsimp only
  rw [ht]
  dsimp only
  rw [hb]
  dsimp only
  rw [he]
  dsimp only
  cases hd : env.decodeResultData tx.txResultData with
  | error e2 =>
    refine ⟨{ status := 0, ethTx := etx, txHash := h, blockHash := rb.block.hash,
              txIndex := tx.index, height := toUint64 rb.block.height,
              data := { logs := [] },
              cumulativeGasUsed := tx.gasUsed +
                (if tx.index ≠ 0 then GetBlockCumulativeGas rb.block tx.index else 0),
              gasUsed := tx.gasUsed }, rfl, ?_, ?_, ?_, rfl, rfl, rfl⟩
    · by_cases h0 : tx.index = 0 <;> simp [h0]
    · exact fun _ _ => ⟨rfl, rfl⟩
    · exact fun d hd2 _ => Except.noConfusion hd2
  | ok d =>
    refine ⟨{ status := (if tx.isOK then 1 else 0), ethTx := etx, txHash := h,
              blockHash := rb.block.hash,
              txIndex := tx.index, height := toUint64 rb.block.height,
              data := (if d.logs.isEmpty then { logs := [] } else d),
              cumulativeGasUsed := tx.gasUsed +
                (if tx.index ≠ 0 then GetBlockCumulativeGas rb.block tx.index else 0),
              gasUsed := tx.gasUsed }, rfl, ?_, ?_, ?_, rfl, rfl, rfl⟩
    · by_cases h0 : tx.index = 0 <;> simp [h0]
    · exact fun e2 he2 => Except.noConfusion he2
    · intro d2 hd2 hl
      injection hd2 with hdd
      subst hdd
      simp [hl]

/-- C6 witness: in `envC6w`, transaction `9` (index 1, gas 21000, undecodable
result blob) is reconstructed with cumulative gas `21005 = 21000 + 5`, failure
status, empty logs, and committed alongside its returned logs. -/
theorem c6_witness :
    getLogsTx envC6w 9 = .logs [] (some ⟨0, 5, 9, 55, 1, 1, ⟨[]⟩, 21005, 21000⟩) ∧
    (21005 : Nat) = 21000 + GetBlockCumulativeGas rb6.block 1 := by
  obtain ⟨r, hr, hcum, hdec, hok, hh, hbh, hg⟩ :=
    c6_receipt_reconstruction envC6w 9 ⟨1, 1, [1], 21000, true, [7]⟩ rb6 5 "miss"
      rfl rfl rfl rfl
  exact ⟨rfl, rfl⟩

/-- A transaction locatable by neither source makes its loop iteration bail
out the whole `GetLogs` call. -/
theorem getLogsTx_allNil (env : Env) (h : Hash) (hu : unlocatable env h) :
    getLogsTx env h = .allNil := by
  obtain ⟨⟨e1, he1⟩, e2, he2⟩ := hu
  unfold getLogsTx
  rw [he1]
  dsimp only
  rw [he2]

/-- If the `k`-th hash is unlocatable and every earlier hash yields logs, the
`GetLogs` loop returns the `nil, nil` outcome (with whatever receipts were
committed before the bail-out). -/
theorem getLogsLoop_nilNil (env : Env) :
    ∀ (hashes : List Hash) (k : Nat) (th : Hash)
      (acc : List (List Log)) (commits : List CommittedReceipt),
      hashes[k]? = some th → unlocatable env th →
      (∀ x ∈ hashes.take k, yieldsLogs env x) →
      ∃ cs, getLogsLoop env hashes acc commits = .nilNil cs := by
  intro hashes
  induction hashes with
  | nil =>
    intro k th acc commits hk
    simp at hk
  | cons hd tl ih =>
    intro k th acc commits hk hu hpre
    cases k with
    | zero =>
      simp only [List.getElem?_cons_zero, Option.some.injEq] at hk
      subst hk
      refine ⟨commits, ?_⟩
      unfold getLogsLoop
      rw [getLogsTx_allNil env hd hu]
    | succ k2 =>
      obtain ⟨l, c, hl⟩ := hpre hd (by simp)
      have hrec := ih k2 th (acc ++ [l]) (commits ++ c.toList)
        (by simpa using hk) hu
        (fun x hx => hpre x (by simp [List.take_succ_cons]; exact Or.inr hx))
      obtain ⟨cs, hcs⟩ := hrec
      refine ⟨cs, ?_⟩
      unfold getLogsLoop
      rw [hl]
      exact hcs

/-- C1 (counterexample): block `77` contains a transaction (`22`) unlocatable
by both sources, yet `GetLogs` returns the error of a preceding transaction's
block fetch — an error, not the no-logs/no-error outcome the claim demands. -/
theorem c1_counterexample :
    GetBlockByHash envC1x 77 false = .ok (some ⟨[11, 22], default⟩) ∧
    envC1x.cacheReceipt 22 = .error "no receipt" ∧
    envC1x.clientTx 22 = .error "not found" ∧
    GetLogs envC1x 77 = .fail "boom" [] :=
  ⟨rfl, rfl, rfl, rfl⟩

/-- C1 (amended): if the block resolves, some transaction in its hash list is
unlocatable by both the cache source and the authoritative source, and every
transaction before the first such one yields its logs without error, then
`GetLogs` returns no logs and no error for the entire block, discarding the
per-transaction results accumulated so far (receipts committed before the
bail-out persist). -/
theorem c1_unlocatable_returns_nil (env : Env) (bh : Hash) (blk : EthBlock)
    (k : Nat) (th : Hash)
    (hblk : GetBlockByHash env bh false = .ok (some blk))
    (hk : blk.transactions[k]? = some th)
    (hu : unlocatable env th)
    (hpre : ∀ x ∈ blk.transactions.take k, yieldsLogs env x) :
    ∃ cs, GetLogs env bh = .nilNil cs := by
  unfold GetLogs
  rw [hblk]
  exact getLogsLoop_nilNil env blk.transactions k th [] [] hk hu hpre

/-- C1 witness: block `88` holds the single unlocatable transaction `33`;
`GetLogs` returns `nil, nil` with no receipts committed. -/
theorem c1_witness : GetLogs envC1w 88 = .nilNil [] := by
  obtain ⟨cs, hcs⟩ := c1_unlocatable_returns_nil envC1w 88 ⟨[33], default⟩ 0 33 rfl rfl
    ⟨⟨"none", rfl⟩, ⟨"none", rfl⟩⟩ (fun x hx => by simp at hx)
  have hval : GetLogsRes.nilNil cs = GetLogsRes.nilNil ([] : List CommittedReceipt) :=
    hcs.symm.trans rfl
  injection hval with h2
  rw [h2] at hcs
  exact hcs

/-- C4 (code evaluation): `UserPendingTransactions` pads its result with a nil
pointer per pool entry before appending the decoded entries (the slice is made
with length, not capacity), and `PendingTransactionsByHash` returns the EVM
decode error instead of silently omitting the entry; the sibling
`PendingTransactions` shows the intended shape on the same pool. -/
theorem c4_pending_views_eval :
    UserPendingTransactions envC4x "addr" 10 = .ok [none, some ⟨5, 1, 0, 0, 0⟩] ∧
    PendingTransactions envC4x = .ok [some ⟨5, 1, 0, 0, 0⟩] ∧
    envC4x.rawTxToEthTx [2] = .error "not an evm tx" ∧
    PendingTransactionsByHash envC4x 7 = .error "not an evm tx" :=
  ⟨rfl, rfl, rfl, rfl⟩

/-- Decoding inverts encoding on one hex digit. -/
theorem hexDigitVal_hexDigitChar : ∀ n < 16, hexDigitVal (hexDigitChar n) = some n := by
  decide

/-- Hex digits are neither the field separator nor the line terminator. -/
theorem hexDigitChar_ne : ∀ n < 16, hexDigitChar n ≠ ':' ∧ hexDigitChar n ≠ '\n' := by
  decide

/-- The two-digit unfolding equation of `hexDecode`. -/
theorem hexDecode_cons2 (c1 c2 : Char) (rest : List Char) :
    hexDecode (c1 :: c2 :: rest) =
      match hexDigitVal c1, hexDigitVal c2 with
      | some hi, some lo => (16 * hi + lo) :: hexDecode rest
      | _, _ => [] := rfl

/-- Decoding inverts encoding on one byte, leaving the remainder. -/
theorem hexDecode_byte (b : Nat) (hb : b < 256) (rest : List Char) :
    hexDecode (byteToHex b ++ rest) = b :: hexDecode rest := by
  have h1 : b / 16 < 16 := by omega
  have h2 : b % 16 < 16 := by omega
  have hbval : 16 * (b / 16) + b % 16 = b := by omega
  unfold byteToHex
  simp only [List.cons_append, List.nil_append]
  rw [hexDecode_cons2, hexDigitVal_hexDigitChar _ h1, hexDigitVal_hexDigitChar _ h2]
  dsimp only
  rw [hbval]

/-- Decoding inverts encoding on a byte sequence. -/
theorem hexDecode_hexEncode (bs : List Nat) (h : ∀ b ∈ bs, b < 256) :
    hexDecode (hexEncode bs) = bs := by
  induction bs with
  | nil => rfl
  | cons b tl ih =>
    unfold hexEncode
    simp only [List.map_cons, List.flatten_cons]
    rw [hexDecode_byte b (h b (by simp)) _]
    have ih2 := ih (fun x hx => h x (by simp [hx]))
    unfold hexEncode at ih2
    rw [ih2]

/-- Hex encoding doubles the length. -/
theorem hexEncode_length (bs : List Nat) : (hexEncode bs).length = 2 * bs.length := by
  induction bs with
  | nil => rfl
  | cons b tl ih =>
    unfold hexEncode at ih ⊢
    simp only [List.map_cons, List.flatten_cons, List.length_append, List.length_cons, ih,
      byteToHex, List.length_nil]
    omega

/-- Characters of a hex-encoded byte sequence are never `:` or a newline. -/
theorem mem_hexEncode (bs : List Nat) (hb : ∀ b ∈ bs, b < 256) (c : Char)
    (hc : c ∈ hexEncode bs) : c ≠ ':' ∧ c ≠ '\n' := by
  induction bs with
  | nil => simp [hexEncode] at hc
  | cons b tl ih =>
    unfold hexEncode at hc
    simp only [List.map_cons, List.flatten_cons, List.mem_append] at hc
    rcases hc with hc | hc
    · have hblt := hb b (by simp)
      unfold byteToHex at hc
      simp only [List.mem_cons, List.not_mem_nil, or_false] at hc
      rcases hc with rfl | rfl
      · exact hexDigitChar_ne (b / 16) (by omega)
      · exact hexDigitChar_ne (b % 16) (by omega)
    · exact ih (fun x hx => hb x (by simp [hx])) hc

/-- Characters of `Hash.Hex()` output are never `:` or a newline. -/
theorem mem_hashHex (hh : List Nat) (hwb : ∀ b ∈ hh, b < 256) (c : Char)
    (hc : c ∈ hashHex hh) : c ≠ ':' ∧ c ≠ '\n' := by
  unfold hashHex at hc
  simp only [List.mem_cons] at hc
  rcases hc with rfl | rfl | hc
  · exact ⟨by decide, by decide⟩
  · exact ⟨by decide, by decide⟩
  · exact mem_hexEncode hh hwb c hc

/-- Splitting a separator-free list is the identity chunk. -/
theorem splitOnChar_no_sep (sep : Char) (cs : List Char) (h : ∀ c ∈ cs, c ≠ sep) :
    splitOnChar sep cs = [cs] := by
  induction cs with
  | nil => rfl
  | cons c tl ih =>
    unfold splitOnChar
    rw [if_neg (h c (by simp)), ih (fun x hx => h x (by simp [hx]))]

/-- The cons unfolding equation of `splitOnChar`. -/
theorem splitOnChar_cons (sep c : Char) (rest : List Char) :
    splitOnChar sep (c :: rest) =
      if c = sep then [] :: splitOnChar sep rest
      else
        match splitOnChar sep rest with
        | [] => [[c]]
        | l :: ls => (c :: l) :: ls := rfl

/-- Splitting peels off a separator-free chunk before the first separator. -/
theorem splitOnChar_append (sep : Char) (a rest : List Char) (h : ∀ c ∈ a, c ≠ sep) :
    splitOnChar sep (a ++ sep :: rest) = a :: splitOnChar sep rest := by
  induction a with
  | nil =>
    rw [List.nil_append, splitOnChar_cons, if_pos rfl]
  | cons c tl ih =>
    rw [List.cons_append, splitOnChar_cons, if_neg (h c (by simp)),
      ih (fun x hx => h x (by simp [hx]))]

/-- `BytesToHash` is the identity on 32-byte values. -/
theorem BytesToHash_len32 (bs : List Nat) (hl : bs.length = 32) : BytesToHash bs = bs := by
  unfold BytesToHash
  simp [hl]

/-- `HexToHash` inverts `Hash.Hex()` on well-formed hashes. -/
theorem HexToHash_hashHex (hh : List Nat) (hw : hashWF hh) : HexToHash (hashHex hh) = hh := by
  obtain ⟨hl, hb⟩ := hw
  unfold HexToHash FromHex hashHex
  dsimp only
  rw [if_pos (show ('0' = '0' ∧ ('x' = 'x' ∨ 'x' = 'X')) from ⟨rfl, Or.inl rfl⟩)]
  rw [hexEncode_length, hl]
  rw [if_neg (show ¬(2 * 32 % 2 = 1) by decide)]
  rw [hexDecode_hexEncode hh hb]
  exact BytesToHash_len32 hh hl

/-- Parsing one written line recovers its storage pair. -/
theorem parseStorageLine_line (k v : List Nat) (hk : hashWF k) (hv : hashWF v) :
    parseStorageLine (hashHex k ++ ':' :: hashHex v) = some ⟨k, v⟩ := by
  unfold parseStorageLine
  have hfil : (hashHex k ++ ':' :: hashHex v).filter (fun c => c ≠ '\n') =
      hashHex k ++ ':' :: hashHex v := by
    rw [List.filter_eq_self]
    intro a ha
    simp only [ne_eq, decide_not, Bool.not_eq_eq_eq_not, Bool.not_true, decide_eq_false_iff_not]
    rcases List.mem_append.mp ha with ha | ha
    · exact (mem_hashHex k hk.2 a ha).2
    · rcases List.mem_cons.mp ha with rfl | ha
      · decide
      · exact (mem_hashHex v hv.2 a ha).2
  rw [hfil]
  rw [splitOnChar_append ':' (hashHex k) _ (fun c hc => (mem_hashHex k hk.2 c hc).1)]
  rw [splitOnChar_no_sep ':' (hashHex v) (fun c hc => (mem_hashHex v hv.2 c hc).1)]
  dsimp only
  rw [HexToHash_hashHex k hk, HexToHash_hashHex v hv]

/-- Splitting the written file yields each line's content plus the empty
trailer chunk. -/
theorem splitLines_write (storage : List StoragePair) (hw : ∀ s ∈ storage, pairWF s) :
    splitOnChar '\n' ((storage.map storageLine).flatten) =
      (storage.map (fun s => hashHex s.key ++ ':' :: hashHex s.value)) ++ [[]] := by
  induction storage with
  | nil => rfl
  | cons s tl ih =>
    simp only [List.map_cons, List.flatten_cons]
    have hcontent : ∀ c ∈ hashHex s.key ++ ':' :: hashHex s.value, c ≠ '\n' := by
      intro c hc
      rcases List.mem_append.mp hc with hc | hc
      · exact (mem_hashHex s.key ((hw s (by simp)).1.2) c hc).2
      · rcases List.mem_cons.mp hc with rfl | hc
        · decide
        · exact (mem_hashHex s.value ((hw s (by simp)).2.2) c hc).2
    have hsl : storageLine s ++ (tl.map storageLine).flatten =
        (hashHex s.key ++ ':' :: hashHex s.value) ++ '\n' :: (tl.map storageLine).flatten := by
      unfold storageLine
      simp [List.append_assoc]
    rw [hsl, splitOnChar_append '\n' _ _ hcontent, ih (fun x hx => hw x (by simp [hx]))]
    simp

/-- Parsing the written line contents recovers the storage sequence. -/
theorem parseStorageLines_map (storage : List StoragePair) (hw : ∀ s ∈ storage, pairWF s) :
    parseStorageLines
      (storage.map (fun s => hashHex s.key ++ ':' :: hashHex s.value)) = some storage := by
  induction storage with
  | nil => rfl
  | cons s tl ih =>
    simp only [List.map_cons]
    unfold parseStorageLines
    rw [parseStorageLine_line s.key s.value (hw s (by simp)).1 (hw s (by simp)).2]
    rw [ih (fun x hx => hw x (by simp [hx]))]

/-- C10: the export tool's storage serialization round-trips — writing each
(key, value) pair as a `<key hex>:<value hex>\n` line and parsing the
resulting lines yields exactly the original sequence of pairs, in order. -/
theorem c10_storage_roundtrip (storage : List StoragePair)
    (hw : ∀ s ∈ storage, pairWF s) :
    readStorageFromFile (syncWriteAccountStorageSlice storage) = some storage := by
  unfold readStorageFromFile syncWriteAccountStorageSlice
  rw [splitLines_write storage hw]
  rw [List.dropLast_concat]
  exact parseStorageLines_map storage hw

/-- C10 witness: one concrete pair of 32-byte hashes round-trips. -/
theorem c10_witness :
    readStorageFromFile (syncWriteAccountStorageSlice [⟨k0, v0⟩]) = some [⟨k0, v0⟩] :=
  c10_storage_roundtrip [⟨k0, v0⟩]
    (by intro s hs; simp at hs; subst hs; constructor <;> constructor <;> decide)

end Exchain

